import Mathlib

/-!
Shallow embedding of the sensitivity-grid normalization and heat-map
rendering core of the capital-canvas repository.

Sources embedded:
- the grid normalizer: the immediately-invoked block inside the heatmap
  TabsContent (src/unnamed/part_006, lines 626-639);
- the heat-map renderer: the HeatmapChart component
  (src/frontend/src/components/HeatmapChart.tsx), including the d3
  scaleBand position computation it delegates to (d3-scale band.js with
  padding 0.05, align 0.5, round false).

JavaScript numbers are modelled as rationals (ℚ): every input the claims
exercise is exactly representable, and Number.prototype.toFixed(1) on such
values agrees with rounding to the nearest tenth, ties upward.
-/

namespace CapitalCanvas

/-- JavaScript Array.prototype.indexOf, returning the index of the first
strictly-equal element, as an Option instead of the -1 sentinel (the
caller in part_006 only tests the result against -1). -/
def jsIndexOf {α : Type} [DecidableEq α] (a : α) : List α → Option Nat
  | [] => none
  | b :: l => if b = a then some 0 else (jsIndexOf a l).map (· + 1)

/-- Helper for dedupKeepFirst: emit each value not already seen, in input
order, tracking the set of seen values. -/
def dedupSeen {α : Type} [DecidableEq α] (seen : List α) : List α → List α
  | [] => []
  | a :: l => if a ∈ seen then dedupSeen seen l else a :: dedupSeen (a :: seen) l

/-- Deduplication keeping the first occurrence of each value, in input
order: the behaviour of Array.from(new Set(...)) in part_006 lines
628-629 and of the d3 ordinal-scale domain map. -/
def dedupKeepFirst {α : Type} [DecidableEq α] (l : List α) : List α :=
  dedupSeen [] l

/-- JavaScript +(x).toFixed(1): round to the nearest multiple of 1/10,
ties toward the larger value (Rat.round is ⌊x + 1/2⌋, which matches). -/
def jsToFixed1 (q : ℚ) : ℚ := (round (q * 10) : ℤ) / 10

/-- One row of modelResults.capital_structure_grid as consumed by the
normalizer (part_006 lines 628-637): a leverage multiple, a cost of
capital as a fraction, and an equity IRR as a fraction. -/
structure GridRow where
  debt_to_ebitda : ℚ
  wacc : ℚ
  equity_irr : ℚ
deriving DecidableEq, Repr

/-- uniqueDebtToEbitda (part_006 line 628): distinct leverage values,
sorted ascending by the numeric comparator (a, b) => a - b. -/
def xKeys (g : List GridRow) : List ℚ :=
  List.insertionSort (fun a b => a ≤ b) (dedupKeepFirst (g.map (·.debt_to_ebitda)))

/-- The y-axis key of one sample: +(row.wacc * 100).toFixed(1)
(part_006 lines 629 and 635). -/
def waccKey (r : GridRow) : ℚ := jsToFixed1 (r.wacc * 100)

/-- uniqueWacc (part_006 line 629): distinct rounded-percentage wacc
values, sorted descending by the comparator (a, b) => b - a. -/
def yKeys (g : List GridRow) : List ℚ :=
  List.insertionSort (fun a b => b ≤ a) (dedupKeepFirst (g.map waccKey))

/-- The freshly allocated matrix (part_006 line 632):
uniqueWacc.map(() => new Array(uniqueDebtToEbitda.length).fill(0)). -/
def emptyMatrix (g : List GridRow) : List (List ℚ) :=
  (yKeys g).map (fun _ => List.replicate (xKeys g).length 0)

/-- The mutation matrix[y][x] = v. List.set is a no-op out of range; the
source only performs the write after both indexOf lookups succeed, which
puts (y, x) in range. -/
def setCell (m : List (List ℚ)) (y x : ℕ) (v : ℚ) : List (List ℚ) :=
  m.set y ((m.getD y []).set x v)

/-- Reading matrix[y][x], None when out of range. -/
def cellGet (m : List (List ℚ)) (y x : ℕ) : Option ℚ :=
  m[y]?.bind (fun row => row[x]?)

/-- The body of gridData.forEach (part_006 lines 633-639): look up both
axis indices and, when both resolve, write row.equity_irr * 100 into the
cell; otherwise drop the sample silently. -/
def fillStep (xs ys : List ℚ) (m : List (List ℚ)) (r : GridRow) : List (List ℚ) :=
  match jsIndexOf r.debt_to_ebitda xs, jsIndexOf (waccKey r) ys with
  | some x, some y => setCell m y x (r.equity_irr * 100)
  | _, _ => m

/-- The fully filled matrix: the forEach loop over gridData as a fold. -/
def matrixOf (g : List GridRow) : List (List ℚ) :=
  g.foldl (fillStep (xKeys g) (yKeys g)) (emptyMatrix g)

/-- The whole normalization pass of part_006 lines 626-639. -/
def normalize (g : List GridRow) : List ℚ × List ℚ × List (List ℚ) :=
  (xKeys g, yKeys g, matrixOf g)

/-! ## Heat-map renderer (HeatmapChart.tsx) -/

/-- scaleBand padding 0.05 sets both the inner padding ratio... -/
def paddingInner : ℚ := 1 / 20

/-- ...and the outer padding ratio (HeatmapChart.tsx lines 46 and 51). -/
def paddingOuter : ℚ := 1 / 20

/-- d3 scaleBand default align. -/
def bandAlign : ℚ := 1 / 2

/-- Fixed margins (HeatmapChart.tsx line 26). -/
def marginTop : ℚ := 40

/-- Fixed margins (HeatmapChart.tsx line 26). -/
def marginRight : ℚ := 40

/-- Fixed margins (HeatmapChart.tsx line 26). -/
def marginBottom : ℚ := 60

/-- Fixed margins (HeatmapChart.tsx line 26). -/
def marginLeft : ℚ := 60

/-- The HeatmapProps input of HeatmapChart.tsx with its default width and
height; title is optional. -/
structure RenderSpec where
  data : List (List ℚ)
  xLabels : List String
  yLabels : List String
  title : Option String := none
  width : ℚ := 600
  height : ℚ := 400
deriving DecidableEq, Repr

/-- innerWidth (HeatmapChart.tsx line 27). -/
def RenderSpec.innerWidth (s : RenderSpec) : ℚ := s.width - marginLeft - marginRight

/-- innerHeight (HeatmapChart.tsx line 28). -/
def RenderSpec.innerHeight (s : RenderSpec) : ℚ := s.height - marginTop - marginBottom

/-- A d3 ordinal/band scale deduplicates its domain keeping first
occurrences. -/
def bandDomain (dom : List String) : List String := dedupKeepFirst dom

/-- The band count n of the deduplicated domain. -/
def bandN (dom : List String) : ℕ := (bandDomain dom).length

/-- d3-scale band.js: step = (stop - start) / max(1, n - paddingInner +
paddingOuter * 2), where start and stop are the range endpoints put in
ascending order. -/
def bandStep (dom : List String) (r0 r1 : ℚ) : ℚ :=
  (max r0 r1 - min r0 r1) / max 1 ((bandN dom : ℚ) - paddingInner + paddingOuter * 2)

/-- d3-scale band.js: start += (stop - start - step * (n - paddingInner))
* align. -/
def bandStart (dom : List String) (r0 r1 : ℚ) : ℚ :=
  min r0 r1 +
    (max r0 r1 - min r0 r1 - bandStep dom r0 r1 * ((bandN dom : ℚ) - paddingInner)) * bandAlign

/-- d3-scale band.js: bandwidth = step * (1 - paddingInner). -/
def bandwidth (dom : List String) (r0 r1 : ℚ) : ℚ :=
  bandStep dom r0 r1 * (1 - paddingInner)

/-- The position a band scale assigns to a label: the values array is
start + step * i for i < n, reversed when the range is descending
(r1 < r0), indexed by the label position in the deduplicated domain;
none for a label outside the domain (band scales have no implicit
domain growth and default unknown = undefined). -/
def bandPos (dom : List String) (r0 r1 : ℚ) (label : String) : Option ℚ :=
  (jsIndexOf label (bandDomain dom)).map fun k : ℕ =>
    bandStart dom r0 r1 +
      bandStep dom r0 r1 * (if r1 < r0 then (bandN dom : ℚ) - 1 - (k : ℚ) else (k : ℚ))

/-- xScale (HeatmapChart.tsx lines 43-46): band over xLabels on
[0, innerWidth]. -/
def xScale (s : RenderSpec) (label : String) : Option ℚ :=
  bandPos s.xLabels 0 s.innerWidth label

/-- yScale (HeatmapChart.tsx lines 48-51): band over yLabels on
[innerHeight, 0] - note the descending range. -/
def yScale (s : RenderSpec) (label : String) : Option ℚ :=
  bandPos s.yLabels s.innerHeight 0 label

/-- The cell abscissa xScale(xLabels[j]) || 0 (HeatmapChart.tsx lines 57
and 71): an out-of-range label index gives undefined, an unknown label
gives undefined, and || turns either (or a 0 result) into 0; over ℚ this
is exactly Option.getD 0. -/
def cellX (s : RenderSpec) (j : ℕ) : ℚ :=
  ((s.xLabels[j]?).bind (xScale s)).getD 0

/-- The cell ordinate yScale(yLabels[i]) || 0 (HeatmapChart.tsx lines 58
and 72). -/
def cellY (s : RenderSpec) (i : ℕ) : ℚ :=
  ((s.yLabels[i]?).bind (yScale s)).getD 0

/-- xScale.bandwidth() as used at lines 59 and 71. -/
def xBandwidth (s : RenderSpec) : ℚ := bandwidth s.xLabels 0 s.innerWidth

/-- yScale.bandwidth() as used at lines 60 and 72. -/
def yBandwidth (s : RenderSpec) : ℚ := bandwidth s.yLabels s.innerHeight 0

/-- d3-array min over plain numbers: undefined on an empty list, else the
least element. -/
def d3min : List ℚ → Option ℚ
  | [] => none
  | a :: l =>
    match d3min l with
    | none => some a
    | some b => some (min a b)

/-- d3-array max over plain numbers: undefined on an empty list, else the
greatest element. -/
def d3max : List ℚ → Option ℚ
  | [] => none
  | a :: l =>
    match d3max l with
    | none => some a
    | some b => some (max a b)

/-- The sequential colour-scale domain [min(data.flat()) || 0,
max(data.flat()) || 0] (HeatmapChart.tsx line 39); over ℚ the || 0
fallback coincides with Option.getD 0 (a 0 minimum is falsy but maps to
0 anyway). -/
def colorDomain (s : RenderSpec) : ℚ × ℚ :=
  ((d3min s.data.flatten).getD 0, (d3max s.data.flatten).getD 0)

/-- The binary cell-label colour data[i][j] > 0 ? "#000" : "#fff"
(HeatmapChart.tsx line 75). -/
def cellTextFill (v : ℚ) : String := if v > 0 then "#000" else "#fff"

/-- One drawn SVG primitive. A cell rectangle records its colour as the
colour-scale domain plus the value fed to the fixed interpolateRdYlBu
interpolator, and its hover title as the two looked-up labels plus the
value (an out-of-range label index is undefined, kept as none). Cell
coordinates are group-relative (the group is translated by the left/top
margins). -/
inductive Prim where
  | cellRect (x y w h : ℚ) (domLo domHi fillVal : ℚ)
      (tipY tipX : Option String) (tipVal : ℚ)
  | cellText (x y : ℚ) (fill : String) (val : ℚ)
  | bottomAxis (labels : List String)
  | leftAxis (labels : List String)
  | titleText (x y : ℚ) (content : String)
  | captionBottom (content : String)
  | captionLeft (content : String)
deriving DecidableEq, Repr

/-- The rect appended for cell (i, j) (HeatmapChart.tsx lines 56-63). -/
def mkCellRect (s : RenderSpec) (i j : ℕ) : Prim :=
  Prim.cellRect (cellX s j) (cellY s i) (xBandwidth s) (yBandwidth s)
    (colorDomain s).1 (colorDomain s).2 ((s.data.getD i []).getD j 0)
    (s.yLabels[i]?) (s.xLabels[j]?) ((s.data.getD i []).getD j 0)

/-- The text appended for cell (i, j) (HeatmapChart.tsx lines 70-77). -/
def mkCellText (s : RenderSpec) (i j : ℕ) : Prim :=
  Prim.cellText (cellX s j + xBandwidth s / 2) (cellY s i + yBandwidth s / 2)
    (cellTextFill ((s.data.getD i []).getD j 0)) ((s.data.getD i []).getD j 0)

/-- The useEffect body of HeatmapChart.tsx as a surface transformer: it
receives the prior contents of the svg and returns the new contents. The
guard at line 21 returns early - before the selectAll("*").remove() at
line 24 - whenever data is empty, leaving the prior contents in place.
Otherwise the prior contents are discarded (the clear) and the draw
emits, in source order: one rect per cell, one text per cell, the two
axes, the title when present and non-empty (if (title) is falsy on ""),
and the two fixed captions. The function is total: no input throws. -/
def renderHeatmap (s : RenderSpec) (prior : List Prim) : List Prim :=
  if s.data.length = 0 then prior
  else
    ((List.range s.data.length).flatMap fun i =>
      (List.range (s.data.getD i []).length).map fun j => mkCellRect s i j)
    ++ ((List.range s.data.length).flatMap fun i =>
      (List.range (s.data.getD i []).length).map fun j => mkCellText s i j)
    ++ [Prim.bottomAxis s.xLabels, Prim.leftAxis s.yLabels]
    ++ (match s.title with
        | some t =>
          if t = "" then [] else [Prim.titleText (s.width / 2) (marginTop / 2) t]
        | none => [])
    ++ [Prim.captionBottom "Terminal Growth Rate (%)", Prim.captionLeft "WACC (%)"]

/-- Shape predicate used by the proofs: m is a matrix with Y rows, each
of length X. -/
def Dims (m : List (List ℚ)) (Y X : ℕ) : Prop :=
  m.length = Y ∧ ∀ row ∈ m, row.length = X

/-- The scenario-A grid rendered at the default 600 x 400 size: two rows,
two columns, distinct labels. -/
def specTwoRows : RenderSpec :=
  { data := [[0, 18], [22, 0]], xLabels := ["3.0x", "5.0x"], yLabels := ["10.0%", "8.0%"] }

/-- A primitive standing for pre-existing svg content from an earlier
draw. -/
def stalePrim : Prim := Prim.captionBottom "stale"

/-- Scenario B input: an empty matrix, with a title supplied. -/
def emptySpec : RenderSpec :=
  { data := [], xLabels := [], yLabels := [],
    title := some "Equity IRR (%) across Capital Structure" }

/-- A non-empty 1 x 1 matrix whose label arrays are both shorter than
the corresponding matrix dimensions (no labels at all). -/
def shortLabelSpec : RenderSpec :=
  { data := [[7]], xLabels := [], yLabels := [] }

/-! ## Library lemmas about the embedded helpers -/

theorem jsIndexOf_lt_length {α : Type} [DecidableEq α] {a : α} {l : List α} {i : ℕ}
    (h : jsIndexOf a l = some i) : i < l.length := by
  induction l generalizing i with
  | nil => simp [jsIndexOf] at h
  | cons b l ih =>
    by_cases hba : b = a
    · simp only [jsIndexOf, if_pos hba, Option.some.injEq] at h
      cases h
      simp
    · simp only [jsIndexOf, if_neg hba, Option.map_eq_some'] at h
      obtain ⟨j, hj, rfl⟩ := h
      simpa using ih hj

theorem jsIndexOf_getElem {α : Type} [DecidableEq α] {a : α} {l : List α} {i : ℕ}
    (h : jsIndexOf a l = some i) : l[i]? = some a := by
  induction l generalizing i with
  | nil => simp [jsIndexOf] at h
  | cons b l ih =>
    by_cases hba : b = a
    · simp only [jsIndexOf, if_pos hba, Option.some.injEq] at h
      cases h
      simp [hba]
    · simp only [jsIndexOf, if_neg hba, Option.map_eq_some'] at h
      obtain ⟨j, hj, rfl⟩ := h
      simpa using ih hj

theorem jsIndexOf_isSome_of_mem {α : Type} [DecidableEq α] {a : α} {l : List α}
    (h : a ∈ l) : (jsIndexOf a l).isSome := by
  induction l with
  | nil => simp at h
  | cons b l ih =>
    by_cases hba : b = a
    · simp [jsIndexOf, if_pos hba]
    · rcases List.mem_cons.mp h with h1 | h2
      · exact absurd h1.symm hba
      · obtain ⟨k, hk⟩ := Option.isSome_iff_exists.mp (ih h2)
        simp [jsIndexOf, if_neg hba, hk]

theorem jsIndexOf_nodup_getElem {α : Type} [DecidableEq α] {l : List α}
    (hnd : l.Nodup) {i : ℕ} (hi : i < l.length) : jsIndexOf (l[i]) l = some i := by
  induction l generalizing i with
  | nil => simp at hi
  | cons b l ih =>
    cases i with
    | zero => simp [jsIndexOf]
    | succ j =>
      have hj : j < l.length := by simpa using hi
      have hbl : b ∉ l := (List.nodup_cons.mp hnd).1
      have hne : b ≠ l[j] := fun e => hbl (e ▸ List.getElem_mem hj)
      simp only [List.getElem_cons_succ, jsIndexOf, if_neg hne,
        ih (List.nodup_cons.mp hnd).2 hj, Option.map_some']

theorem mem_dedupSeen {α : Type} [DecidableEq α] {x : α} {seen l : List α} :
    x ∈ dedupSeen seen l ↔ x ∈ l ∧ x ∉ seen := by
  induction l generalizing seen with
  | nil => simp [dedupSeen]
  | cons a l ih =>
    by_cases ha : a ∈ seen
    · rw [dedupSeen, if_pos ha, ih]
      constructor
      · exact fun h => ⟨List.mem_cons_of_mem a h.1, h.2⟩
      · rintro ⟨h1, h2⟩
        rcases List.mem_cons.mp h1 with rfl | h1
        · exact absurd ha h2
        · exact ⟨h1, h2⟩
    · rw [dedupSeen, if_neg ha]
      constructor
      · intro h
        rcases List.mem_cons.mp h with rfl | h
        · exact ⟨List.mem_cons_self _ _, ha⟩
        · have := ih.mp h
          refine ⟨List.mem_cons_of_mem a this.1, fun hx => this.2 (List.mem_cons_of_mem a hx)⟩
      · rintro ⟨h1, h2⟩
        rcases List.mem_cons.mp h1 with rfl | h1
        · exact List.mem_cons_self _ _
        · by_cases hxa : x = a
          · exact hxa ▸ List.mem_cons_self _ _
          · refine List.mem_cons_of_mem a (ih.mpr ⟨h1, ?_⟩)
            intro hx
            rcases List.mem_cons.mp hx with h | h
            · exact hxa h
            · exact h2 h

theorem nodup_dedupSeen {α : Type} [DecidableEq α] (seen l : List α) :
    (dedupSeen seen l).Nodup := by
  induction l generalizing seen with
  | nil => simp [dedupSeen]
  | cons a l ih =>
    by_cases ha : a ∈ seen
    · rw [dedupSeen, if_pos ha]
      exact ih seen
    · rw [dedupSeen, if_neg ha]
      refine List.nodup_cons.mpr ⟨fun hmem => ?_, ih _⟩
      exact (mem_dedupSeen.mp hmem).2 (List.mem_cons_self a seen)

theorem dedupSeen_eq_self {α : Type} [DecidableEq α] {seen l : List α} (hnd : l.Nodup)
    (h : ∀ x ∈ l, x ∉ seen) : dedupSeen seen l = l := by
  induction l generalizing seen with
  | nil => rfl
  | cons a l ih =>
    have ha : a ∉ seen := h a (List.mem_cons_self _ _)
    rw [dedupSeen, if_neg ha]
    congr 1
    refine ih (List.nodup_cons.mp hnd).2 (fun x hx => ?_)
    intro hmem
    rcases List.mem_cons.mp hmem with rfl | hmem
    · exact (List.nodup_cons.mp hnd).1 hx
    · exact h x (List.mem_cons_of_mem a hx) hmem

theorem mem_dedupKeepFirst {α : Type} [DecidableEq α] {x : α} {l : List α} :
    x ∈ dedupKeepFirst l ↔ x ∈ l := by
  rw [dedupKeepFirst, mem_dedupSeen]
  simp

theorem nodup_dedupKeepFirst {α : Type} [DecidableEq α] (l : List α) :
    (dedupKeepFirst l).Nodup :=
  nodup_dedupSeen [] l

theorem dedupKeepFirst_eq_self {α : Type} [DecidableEq α] {l : List α} (hnd : l.Nodup) :
    dedupKeepFirst l = l :=
  dedupSeen_eq_self hnd (by simp)

theorem d3min_eq_none_iff {l : List ℚ} : d3min l = none ↔ l = [] := by
  cases l with
  | nil => simp [d3min]
  | cons a l =>
    rw [d3min]
    cases hd : d3min l with
    | none => simp
    | some b => simp

theorem d3min_mem {l : List ℚ} {b : ℚ} (h : d3min l = some b) : b ∈ l := by
  induction l generalizing b with
  | nil => simp [d3min] at h
  | cons a l ih =>
    rw [d3min] at h
    cases hd : d3min l with
    | none =>
      rw [hd] at h
      have h2 : some a = some b := h
      cases h2
      exact List.mem_cons_self _ _
    | some c =>
      rw [hd] at h
      have h2 : some (min a c) = some b := h
      cases h2
      rcases le_total a c with hac | hca
      · rw [min_eq_left hac]
        exact List.mem_cons_self _ _
      · rw [min_eq_right hca]
        exact List.mem_cons_of_mem a (ih hd)

theorem d3min_le {l : List ℚ} {b : ℚ} (h : d3min l = some b) : ∀ x ∈ l, b ≤ x := by
  induction l generalizing b with
  | nil => simp [d3min] at h
  | cons a l ih =>
    rw [d3min] at h
    intro x hx
    cases hd : d3min l with
    | none =>
      rw [hd] at h
      have h2 : some a = some b := h
      cases h2
      have : l = [] := d3min_eq_none_iff.mp hd
      subst this
      rcases List.mem_cons.mp hx with rfl | hx
      · exact le_refl _
      · simp at hx
    | some c =>
      rw [hd] at h
      have h2 : some (min a c) = some b := h
      cases h2
      rcases List.mem_cons.mp hx with rfl | hx
      · exact min_le_left _ _
      · exact le_trans (min_le_right _ _) (ih hd x hx)

theorem d3min_eq_some {l : List ℚ} {m : ℚ} (hm : m ∈ l) (hle : ∀ x ∈ l, m ≤ x) :
    d3min l = some m := by
  induction l with
  | nil => simp at hm
  | cons a l ih =>
    rw [d3min]
    cases hd : d3min l with
    | none =>
      have : l = [] := d3min_eq_none_iff.mp hd
      subst this
      show some a = some m
      rcases List.mem_cons.mp hm with rfl | hm
      · rfl
      · simp at hm
    | some b =>
      show some (min a b) = some m
      have hba : b ∈ l := d3min_mem hd
      have hmb : m ≤ b := hle b (List.mem_cons_of_mem a hba)
      have hma : m ≤ a := hle a (List.mem_cons_self _ _)
      rcases List.mem_cons.mp hm with rfl | hm
      · rw [min_eq_left hmb]
      · have h2 : d3min l = some m := ih hm (fun x hx => hle x (List.mem_cons_of_mem a hx))
        rw [hd] at h2
        have h3 : b = m := by cases h2; rfl
        subst h3
        rw [min_eq_right hma]

theorem d3max_eq_none_iff {l : List ℚ} : d3max l = none ↔ l = [] := by
  cases l with
  | nil => simp [d3max]
  | cons a l =>
    rw [d3max]
    cases hd : d3max l with
    | none => simp
    | some b => simp

theorem d3max_mem {l : List ℚ} {b : ℚ} (h : d3max l = some b) : b ∈ l := by
  induction l generalizing b with
  | nil => simp [d3max] at h
  | cons a l ih =>
    rw [d3max] at h
    cases hd : d3max l with
    | none =>
      rw [hd] at h
      have h2 : some a = some b := h
      cases h2
      exact List.mem_cons_self _ _
    | some c =>
      rw [hd] at h
      have h2 : some (max a c) = some b := h
      cases h2
      rcases le_total a c with hac | hca
      · rw [max_eq_right hac]
        exact List.mem_cons_of_mem a (ih hd)
      · rw [max_eq_left hca]
        exact List.mem_cons_self _ _

theorem d3max_ge {l : List ℚ} {b : ℚ} (h : d3max l = some b) : ∀ x ∈ l, x ≤ b := by
  induction l generalizing b with
  | nil => simp [d3max] at h
  | cons a l ih =>
    rw [d3max] at h
    intro x hx
    cases hd : d3max l with
    | none =>
      rw [hd] at h
      have h2 : some a = some b := h
      cases h2
      have : l = [] := d3max_eq_none_iff.mp hd
      subst this
      rcases List.mem_cons.mp hx with rfl | hx
      · exact le_refl _
      · simp at hx
    | some c =>
      rw [hd] at h
      have h2 : some (max a c) = some b := h
      cases h2
      rcases List.mem_cons.mp hx with rfl | hx
      · exact le_max_left _ _
      · exact le_trans (ih hd x hx) (le_max_right _ _)

theorem d3max_eq_some {l : List ℚ} {m : ℚ} (hm : m ∈ l) (hle : ∀ x ∈ l, x ≤ m) :
    d3max l = some m := by
  induction l with
  | nil => simp at hm
  | cons a l ih =>
    rw [d3max]
    cases hd : d3max l with
    | none =>
      have : l = [] := d3max_eq_none_iff.mp hd
      subst this
      show some a = some m
      rcases List.mem_cons.mp hm with rfl | hm
      · rfl
      · simp at hm
    | some b =>
      show some (max a b) = some m
      have hba : b ∈ l := d3max_mem hd
      have hmb : b ≤ m := hle b (List.mem_cons_of_mem a hba)
      have hma : a ≤ m := hle a (List.mem_cons_self _ _)
      rcases List.mem_cons.mp hm with rfl | hm
      · rw [max_eq_left hmb]
      · have h2 : d3max l = some m := ih hm (fun x hx => hle x (List.mem_cons_of_mem a hx))
        rw [hd] at h2
        have h3 : b = m := by cases h2; rfl
        subst h3
        rw [max_eq_right hma]

theorem getD_eq_getElem_of_lt {m : List (List ℚ)} {y : ℕ} (hy : y < m.length) :
    m.getD y [] = m[y] := by
  rw [List.getD_eq_getElem?_getD, List.getElem?_eq_getElem hy]
  rfl

theorem cellGet_setCell_self {m : List (List ℚ)} {y x : ℕ} {v : ℚ}
    (hy : y < m.length) (hx : x < (m.getD y []).length) :
    cellGet (setCell m y x v) y x = some v := by
  unfold cellGet setCell
  rw [List.getElem?_set_self (by simpa using hy)]
  simp only [Option.some_bind]
  exact List.getElem?_set_self (by simpa using hx)

theorem cellGet_setCell_ne {m : List (List ℚ)} {y x y' x' : ℕ} {v : ℚ}
    (h : y' ≠ y ∨ x' ≠ x) :
    cellGet (setCell m y' x' v) y x = cellGet m y x := by
  unfold cellGet setCell
  rcases h with h | h
  · rw [List.getElem?_set_ne h]
  · by_cases hyy : y' = y
    · subst hyy
      by_cases hlen : y' < m.length
      · rw [List.getElem?_set_self hlen, List.getElem?_eq_getElem hlen,
          getD_eq_getElem_of_lt hlen]
        simp only [Option.some_bind]
        exact List.getElem?_set_ne h
      · have hle : m.length ≤ y' := Nat.le_of_not_lt hlen
        rw [List.getElem?_eq_none (by simpa using hle), List.getElem?_eq_none hle]
    · rw [List.getElem?_set_ne hyy]

theorem dims_emptyMatrix (g : List GridRow) :
    Dims (emptyMatrix g) (yKeys g).length (xKeys g).length := by
  constructor
  · simp [emptyMatrix]
  · intro row hrow
    simp only [emptyMatrix, List.mem_map] at hrow
    obtain ⟨_, _, rfl⟩ := hrow
    simp

theorem dims_fillStep {xs ys : List ℚ} {m : List (List ℚ)} {r : GridRow}
    (h : Dims m ys.length xs.length) :
    Dims (fillStep xs ys m r) ys.length xs.length := by
  unfold fillStep
  cases hx : jsIndexOf r.debt_to_ebitda xs with
  | none => exact h
  | some x =>
    cases hy : jsIndexOf (waccKey r) ys with
    | none => exact h
    | some y =>
      have hyl : y < m.length := h.1 ▸ jsIndexOf_lt_length hy
      show Dims (setCell m y x (r.equity_irr * 100)) ys.length xs.length
      unfold setCell
      constructor
      · rw [List.length_set]
        exact h.1
      · intro row hrow
        rcases List.mem_or_eq_of_mem_set hrow with hm | he
        · exact h.2 _ hm
        · subst he
          rw [List.length_set, getD_eq_getElem_of_lt hyl]
          exact h.2 _ (List.getElem_mem hyl)

theorem dims_foldl_fillStep (xs ys : List ℚ) (rest : List GridRow) (m : List (List ℚ))
    (h : Dims m ys.length xs.length) :
    Dims (List.foldl (fillStep xs ys) m rest) ys.length xs.length := by
  induction rest generalizing m with
  | nil => exact h
  | cons r rest ih => exact ih _ (dims_fillStep h)

theorem dims_matrixOf (g : List GridRow) :
    Dims (matrixOf g) (yKeys g).length (xKeys g).length :=
  dims_foldl_fillStep _ _ g _ (dims_emptyMatrix g)

theorem cellGet_fillStep_ne {xs ys : List ℚ} {m : List (List ℚ)} {r : GridRow} {x y : ℕ}
    (h : ¬(jsIndexOf r.debt_to_ebitda xs = some x ∧ jsIndexOf (waccKey r) ys = some y)) :
    cellGet (fillStep xs ys m r) y x = cellGet m y x := by
  unfold fillStep
  cases hx : jsIndexOf r.debt_to_ebitda xs with
  | none => rfl
  | some a =>
    cases hy : jsIndexOf (waccKey r) ys with
    | none => rfl
    | some b =>
      apply cellGet_setCell_ne
      by_cases hby : b = y
      · by_cases hax : a = x
        · subst hby
          subst hax
          exact absurd ⟨hx, hy⟩ h
        · exact Or.inr hax
      · exact Or.inl hby

theorem cellGet_foldl_fillStep {xs ys : List ℚ} (rest : List GridRow)
    (m : List (List ℚ)) {x y : ℕ}
    (h : ∀ r ∈ rest,
      ¬(jsIndexOf r.debt_to_ebitda xs = some x ∧ jsIndexOf (waccKey r) ys = some y)) :
    cellGet (List.foldl (fillStep xs ys) m rest) y x = cellGet m y x := by
  induction rest generalizing m with
  | nil => rfl
  | cons r rest ih =>
    rw [List.foldl_cons, ih _ (fun q hq => h q (List.mem_cons_of_mem r hq))]
    exact cellGet_fillStep_ne (h r (List.mem_cons_self _ _))

theorem cellGet_emptyMatrix {g : List GridRow} {i j : ℕ}
    (hi : i < (yKeys g).length) (hj : j < (xKeys g).length) :
    cellGet (emptyMatrix g) i j = some 0 := by
  unfold cellGet emptyMatrix
  rw [List.getElem?_map, List.getElem?_eq_getElem hi]
  simp [List.getElem?_replicate, hj]

theorem mem_xKeys {g : List GridRow} {r : GridRow} (hr : r ∈ g) :
    r.debt_to_ebitda ∈ xKeys g := by
  unfold xKeys
  rw [(List.perm_insertionSort _ _).mem_iff, mem_dedupKeepFirst]
  exact List.mem_map_of_mem _ hr

theorem mem_yKeys {g : List GridRow} {r : GridRow} (hr : r ∈ g) :
    waccKey r ∈ yKeys g := by
  unfold yKeys
  rw [(List.perm_insertionSort _ _).mem_iff, mem_dedupKeepFirst]
  exact List.mem_map_of_mem _ hr

theorem xKeys_sorted (g : List GridRow) :
    (xKeys g).Sorted (fun a b : ℚ => a ≤ b) :=
  List.sorted_insertionSort _ _

theorem yKeys_sorted (g : List GridRow) :
    (yKeys g).Sorted (fun a b : ℚ => b ≤ a) :=
  List.sorted_insertionSort _ _

theorem nodup_xKeys (g : List GridRow) : (xKeys g).Nodup :=
  (List.perm_insertionSort _ _).symm.nodup (nodup_dedupKeepFirst _)

theorem nodup_yKeys (g : List GridRow) : (yKeys g).Nodup :=
  (List.perm_insertionSort _ _).symm.nodup (nodup_dedupKeepFirst _)

/-! ## The claims -/

/-- C6: for every sample sequence, the xKeys axis (distinct leverage
values) is strictly ascending, and the yKeys axis (distinct
rounded-percentage wacc values) is strictly descending: sorting a
duplicate-free key set with the numeric comparators of part_006 lines
628-629 yields strict chains. -/
theorem axis_keys_strictly_sorted (g : List GridRow) :
    (xKeys g).Pairwise (fun a b => a < b) ∧ (yKeys g).Pairwise (fun a b => b < a) := by
  constructor
  · have hs : (xKeys g).Pairwise (fun a b : ℚ => a ≤ b) := xKeys_sorted g
    have hn : (xKeys g).Pairwise (fun a b : ℚ => a ≠ b) := nodup_xKeys g
    exact (hs.and hn).imp (fun h => lt_of_le_of_ne h.1 h.2)
  · have hs : (yKeys g).Pairwise (fun a b : ℚ => b ≤ a) := yKeys_sorted g
    have hn : (yKeys g).Pairwise (fun a b : ℚ => a ≠ b) := nodup_yKeys g
    exact (hs.and hn).imp (fun h => lt_of_le_of_ne h.1 (Ne.symm h.2))

/-- C9: no sample is ever silently dropped: every sample's leverage
resolves to an index in the x axis and its rounded-percentage wacc to an
index in the y axis, because both axes were derived (dedup + sort, a
permutation-preserving pipeline) from the same sample list. All modelled
numbers (ℚ) are finite, matching the finiteness hypothesis. -/
theorem no_sample_silently_dropped {g : List GridRow} {r : GridRow} (hr : r ∈ g) :
    (jsIndexOf r.debt_to_ebitda (xKeys g)).isSome ∧
      (jsIndexOf (waccKey r) (yKeys g)).isSome :=
  ⟨jsIndexOf_isSome_of_mem (mem_xKeys hr), jsIndexOf_isSome_of_mem (mem_yKeys hr)⟩

/-- Witness for C9 at the scenario-A input. -/
theorem no_sample_silently_dropped_witness :
    (jsIndexOf (GridRow.mk 3 (8/100) (22/100)).debt_to_ebitda
        (xKeys [⟨3, 8/100, 22/100⟩, ⟨5, 10/100, 18/100⟩])).isSome ∧
      (jsIndexOf (waccKey (GridRow.mk 3 (8/100) (22/100)))
        (yKeys [⟨3, 8/100, 22/100⟩, ⟨5, 10/100, 18/100⟩])).isSome :=
  no_sample_silently_dropped (List.mem_cons_self _ _)

/-- C5: for EVERY sample sequence - fully covered grids and empty axes
included - the filled matrix keeps the allocated shape, len(yKeys) rows
each of len(xKeys) cells; and any in-range cell no sample resolves to
keeps its initial fill value 0. -/
theorem matrix_shape_and_default (g : List GridRow) :
    (matrixOf g).length = (yKeys g).length ∧
      (∀ row ∈ matrixOf g, row.length = (xKeys g).length) ∧
      (∀ i j, i < (yKeys g).length → j < (xKeys g).length →
        (∀ r ∈ g, ¬(jsIndexOf r.debt_to_ebitda (xKeys g) = some j ∧
          jsIndexOf (waccKey r) (yKeys g) = some i)) →
        cellGet (matrixOf g) i j = some 0) := by
  refine ⟨(dims_matrixOf g).1, (dims_matrixOf g).2, ?_⟩
  intro i j hi hj huntouched
  unfold matrixOf
  rw [cellGet_foldl_fillStep g _ huntouched]
  exact cellGet_emptyMatrix hi hj

theorem cellGet_foldl_last (xs ys : List ℚ) (post : List GridRow) (r : GridRow)
    (m : List (List ℚ)) (x y : ℕ)
    (hdims : Dims m ys.length xs.length)
    (hx : jsIndexOf r.debt_to_ebitda xs = some x)
    (hy : jsIndexOf (waccKey r) ys = some y)
    (hlast : ∀ q ∈ post, ¬(q.debt_to_ebitda = r.debt_to_ebitda ∧ waccKey q = waccKey r)) :
    cellGet (List.foldl (fillStep xs ys) m (r :: post)) y x = some (r.equity_irr * 100) := by
  rw [List.foldl_cons]
  have hpost : ∀ q ∈ post,
      ¬(jsIndexOf q.debt_to_ebitda xs = some x ∧ jsIndexOf (waccKey q) ys = some y) := by
    intro q hq hcon
    apply hlast q hq
    have h2 : some q.debt_to_ebitda = some r.debt_to_ebitda := by
      rw [← jsIndexOf_getElem hcon.1, jsIndexOf_getElem hx]
    have h4 : some (waccKey q) = some (waccKey r) := by
      rw [← jsIndexOf_getElem hcon.2, jsIndexOf_getElem hy]
    exact ⟨Option.some.inj h2, Option.some.inj h4⟩
  rw [cellGet_foldl_fillStep post _ hpost]
  have hylen : y < m.length := by
    rw [hdims.1]
    exact jsIndexOf_lt_length hy
  have hxlen : x < (m.getD y []).length := by
    rw [getD_eq_getElem_of_lt hylen, hdims.2 _ (List.getElem_mem hylen)]
    exact jsIndexOf_lt_length hx
  have hfill : fillStep xs ys m r = setCell m y x (r.equity_irr * 100) := by
    unfold fillStep
    rw [hx, hy]
  rw [hfill]
  exact cellGet_setCell_self hylen hxlen

/-- C4: when a sample r is the last one of the input carrying its
(leverage, rounded-percentage wacc) key pair, and that pair resolves to
axis indices (x, y), the filled matrix holds r.equity_irr * 100 at
matrix[y][x]: later samples never touch that cell, so the write at r
survives the remaining fold (last-write-wins). -/
theorem roundtrip_last_write (pre post : List GridRow) (r : GridRow) (x y : ℕ)
    (hlast : ∀ q ∈ post, ¬(q.debt_to_ebitda = r.debt_to_ebitda ∧ waccKey q = waccKey r))
    (hx : jsIndexOf r.debt_to_ebitda (xKeys (pre ++ r :: post)) = some x)
    (hy : jsIndexOf (waccKey r) (yKeys (pre ++ r :: post)) = some y) :
    cellGet (matrixOf (pre ++ r :: post)) y x = some (r.equity_irr * 100) := by
  unfold matrixOf
  rw [List.foldl_append]
  exact cellGet_foldl_last _ _ post r _ x y
    (dims_foldl_fillStep _ _ pre _ (dims_emptyMatrix _)) hx hy hlast

/-- Witness for C4: in scenario A the second sample is the last (only)
writer of its cell, and its equity IRR lands at matrix[0][1] in
percentage form. -/
theorem roundtrip_last_write_witness :
    cellGet (matrixOf ([⟨3, 8/100, 22/100⟩] ++ ⟨5, 10/100, 18/100⟩ :: [])) 0 1 =
      some ((18:ℚ)/100 * 100) :=
  roundtrip_last_write [⟨3, 8/100, 22/100⟩] [] ⟨5, 10/100, 18/100⟩ 1 0
    (by simp)
    (by norm_num [xKeys, dedupKeepFirst, dedupSeen, List.insertionSort,
      List.orderedInsert, jsIndexOf])
    (by norm_num [yKeys, waccKey, jsToFixed1, round_eq, dedupKeepFirst, dedupSeen,
      List.insertionSort, List.orderedInsert, jsIndexOf])

/-- Witness for C5 at the scenario-A input: the shape conjuncts hold,
and cell (0, 0) - row of wacc 10.0, column of leverage 3 - is covered by
no sample and reads 0. -/
theorem matrix_shape_and_default_witness :
    (matrixOf [⟨3, 8/100, 22/100⟩, ⟨5, 10/100, 18/100⟩]).length =
        (yKeys [⟨3, 8/100, 22/100⟩, ⟨5, 10/100, 18/100⟩]).length ∧
      (∀ row ∈ matrixOf [⟨3, 8/100, 22/100⟩, ⟨5, 10/100, 18/100⟩],
        row.length = (xKeys [⟨3, 8/100, 22/100⟩, ⟨5, 10/100, 18/100⟩]).length) ∧
      cellGet (matrixOf [⟨3, 8/100, 22/100⟩, ⟨5, 10/100, 18/100⟩]) 0 0 = some 0 :=
  ⟨(matrix_shape_and_default [⟨3, 8/100, 22/100⟩, ⟨5, 10/100, 18/100⟩]).1,
    (matrix_shape_and_default [⟨3, 8/100, 22/100⟩, ⟨5, 10/100, 18/100⟩]).2.1,
    (matrix_shape_and_default [⟨3, 8/100, 22/100⟩, ⟨5, 10/100, 18/100⟩]).2.2 0 0
      (by norm_num [yKeys, waccKey, jsToFixed1, round_eq, dedupKeepFirst, dedupSeen,
        List.insertionSort, List.orderedInsert])
      (by norm_num [xKeys, dedupKeepFirst, dedupSeen, List.insertionSort,
        List.orderedInsert])
      (by norm_num [xKeys, yKeys, waccKey, jsToFixed1, round_eq, dedupKeepFirst,
        dedupSeen, List.insertionSort, List.orderedInsert, jsIndexOf])⟩

/-- C3: scenario A. Normalizing the two-sample input of the spec yields
ascending leverage keys [3, 5], descending percentage keys [10.0, 8.0],
and the matrix [[0, 18], [22, 0]]. -/
theorem scenarioA_normalize :
    CapitalCanvas.normalize [⟨3, 8/100, 22/100⟩, ⟨5, 10/100, 18/100⟩] =
      ([3, 5], [10, 8], [[0, 18], [22, 0]]) := by
  norm_num [CapitalCanvas.normalize, xKeys, yKeys, matrixOf, emptyMatrix,
    fillStep, setCell, waccKey, jsToFixed1, jsIndexOf, dedupKeepFirst, dedupSeen,
    round_eq, List.insertionSort, List.orderedInsert, List.replicate, List.set,
    List.getD]

theorem fillStep_eq_of {xs ys : List ℚ} {r : GridRow} {x y : ℕ} (m : List (List ℚ))
    (hx : jsIndexOf r.debt_to_ebitda xs = some x)
    (hy : jsIndexOf (waccKey r) ys = some y) :
    fillStep xs ys m r = setCell m y x (r.equity_irr * 100) := by
  unfold fillStep
  rw [hx, hy]

/-- C7: scenario C. The wacc values 0.0800001 and 0.0799999 both round
to the percentage key 8.0 and collapse into the single y key [8]; the two
samples share leverage 3, so they collide on the one cell, where the
later-iterated sample wins: the cell holds irr2 * 100 whatever irr1 was. -/
theorem scenarioC_rounding_collapse (irr1 irr2 : ℚ) :
    CapitalCanvas.normalize [⟨3, 800001/10000000, irr1⟩, ⟨3, 799999/10000000, irr2⟩] =
      ([3], [8], [[irr2 * 100]]) := by
  have h1 : waccKey ⟨3, 800001/10000000, irr1⟩ = 8 := by
    norm_num [waccKey, jsToFixed1, round_eq]
  have h2 : waccKey ⟨3, 799999/10000000, irr2⟩ = 8 := by
    norm_num [waccKey, jsToFixed1, round_eq]
  have hx : xKeys [⟨3, 800001/10000000, irr1⟩, ⟨3, 799999/10000000, irr2⟩] = [3] := by
    norm_num [xKeys, dedupKeepFirst, dedupSeen, List.insertionSort, List.orderedInsert]
  have hy : yKeys [⟨3, 800001/10000000, irr1⟩, ⟨3, 799999/10000000, irr2⟩] = [8] := by
    unfold yKeys
    rw [List.map_cons, List.map_cons, List.map_nil, h1, h2]
    norm_num [dedupKeepFirst, dedupSeen, List.insertionSort, List.orderedInsert]
  have hj8 : jsIndexOf (8:ℚ) [8] = some 0 := by norm_num [jsIndexOf]
  have hx1 : jsIndexOf (GridRow.mk 3 (800001/10000000) irr1).debt_to_ebitda [3] = some 0 := by
    norm_num [jsIndexOf]
  have hx2 : jsIndexOf (GridRow.mk 3 (799999/10000000) irr2).debt_to_ebitda [3] = some 0 := by
    norm_num [jsIndexOf]
  have hy1 : jsIndexOf (waccKey ⟨3, 800001/10000000, irr1⟩) [8] = some 0 := by
    rw [h1]
    exact hj8
  have hy2 : jsIndexOf (waccKey ⟨3, 799999/10000000, irr2⟩) [8] = some 0 := by
    rw [h2]
    exact hj8
  have hf1 : fillStep [3] [8] [[0]] ⟨3, 800001/10000000, irr1⟩ = [[irr1 * 100]] := by
    rw [fillStep_eq_of [[0]] hx1 hy1]
    rfl
  have hf2 : fillStep [3] [8] [[irr1 * 100]] ⟨3, 799999/10000000, irr2⟩ = [[irr2 * 100]] := by
    rw [fillStep_eq_of [[irr1 * 100]] hx2 hy2]
    rfl
  have hrep : ([8]:List ℚ).map (fun _ => List.replicate ([3]:List ℚ).length (0:ℚ)) = [[0]] := rfl
  unfold CapitalCanvas.normalize matrixOf emptyMatrix
  rw [hx, hy, hrep, List.foldl_cons, hf1, List.foldl_cons, hf2, List.foldl_nil]

/-- C8: for a matrix whose values are exactly -5, 0 and 12, the colour
scale domain [min(flat) || 0, max(flat) || 0] is (-5, 12), and the
sign-based overlay text colour is the light "#fff" for -5 and 0 (not
strictly positive) and the dark "#000" for 12. -/
theorem color_domain_scenarioD (s : RenderSpec)
    (hvals : ∀ v : ℚ, v ∈ s.data.flatten ↔ (v = -5 ∨ v = 0 ∨ v = 12)) :
    colorDomain s = (-5, 12) ∧
      cellTextFill (-5) = "#fff" ∧ cellTextFill 0 = "#fff" ∧ cellTextFill 12 = "#000" := by
  refine ⟨?_, by norm_num [cellTextFill], by norm_num [cellTextFill],
    by norm_num [cellTextFill]⟩
  unfold colorDomain
  rw [d3min_eq_some ((hvals (-5)).mpr (Or.inl rfl)) ?_,
    d3max_eq_some ((hvals 12).mpr (Or.inr (Or.inr rfl))) ?_]
  · rfl
  · intro x hx
    rcases (hvals x).mp hx with rfl | rfl | rfl <;> norm_num
  · intro x hx
    rcases (hvals x).mp hx with rfl | rfl | rfl <;> norm_num

/-- Witness for C8 on the concrete one-row matrix [[-5, 0, 12]]. -/
theorem color_domain_scenarioD_witness :
    colorDomain { data := [[-5, 0, 12]], xLabels := [], yLabels := [] } = (-5, 12) ∧
      cellTextFill (-5) = "#fff" ∧ cellTextFill 0 = "#fff" ∧ cellTextFill 12 = "#000" :=
  color_domain_scenarioD { data := [[-5, 0, 12]], xLabels := [], yLabels := [] }
    (by intro v; simp)

theorem bandStep_pos {dom : List String} {r0 r1 : ℚ} (h : min r0 r1 < max r0 r1) :
    0 < bandStep dom r0 r1 := by
  unfold bandStep
  apply div_pos (by linarith)
  calc (0:ℚ) < 1 := one_pos
    _ ≤ max 1 ((bandN dom : ℚ) - paddingInner + paddingOuter * 2) := le_max_left _ _

theorem cellY_eq_of_nodup {s : RenderSpec} (hnd : s.yLabels.Nodup)
    (hpos : 0 < s.innerHeight) {i : ℕ} (hi : i < s.yLabels.length) :
    cellY s i = bandStart s.yLabels s.innerHeight 0 +
      bandStep s.yLabels s.innerHeight 0 * ((s.yLabels.length : ℚ) - 1 - (i : ℚ)) := by
  have hdom : bandDomain s.yLabels = s.yLabels := dedupKeepFirst_eq_self hnd
  unfold cellY
  rw [List.getElem?_eq_getElem hi]
  simp only [Option.some_bind]
  unfold yScale bandPos
  rw [hdom, jsIndexOf_nodup_getElem hnd hi]
  simp only [Option.map_some', Option.getD_some]
  rw [if_pos hpos]
  unfold bandN
  rw [hdom]

/-- C1 counterexample: on the scenario-A grid at the default 600 x 400
size, the y coordinate of yLabels[0] (the 10.0 percent row) is NOT
strictly smaller than that of yLabels[1]: the claim as stated fails,
because yScale's range [innerHeight, 0] is descending and d3 scaleBand
reverses its band positions on a descending range. -/
theorem yScale_row0_not_at_top : ¬ cellY specTwoRows 0 < cellY specTwoRows 1 := by
  norm_num +decide [cellY, yScale, bandPos, bandDomain, dedupKeepFirst, dedupSeen,
    bandStart, bandStep, bandN, bandAlign, paddingInner, paddingOuter, jsIndexOf,
    RenderSpec.innerHeight, marginTop, marginBottom, specTwoRows]

/-- C1 amended: with distinct y labels and a positive inner height, the
y coordinate of yLabels[0] is strictly GREATER than that of yLabels[i]
for every i greater than 0: row 0 (the highest cost-of-capital row)
renders at the bottom of the inner plotting area, not the top, because
the band scale built on the descending range [innerHeight, 0] reverses
its position array. -/
theorem yScale_row0_at_bottom (s : RenderSpec) (hnd : s.yLabels.Nodup)
    (hpos : 0 < s.innerHeight) (i : ℕ) (h0 : 0 < i) (hi : i < s.yLabels.length) :
    cellY s i < cellY s 0 := by
  have h0i : 0 < s.yLabels.length := Nat.lt_of_le_of_lt (Nat.zero_le i) hi
  rw [cellY_eq_of_nodup hnd hpos hi, cellY_eq_of_nodup hnd hpos h0i]
  have hstep : 0 < bandStep s.yLabels s.innerHeight 0 := by
    apply bandStep_pos
    rw [max_eq_left hpos.le, min_eq_right hpos.le]
    exact hpos
  have hiq : (0:ℚ) < (i:ℚ) := by exact_mod_cast h0
  have key : 0 < bandStep s.yLabels s.innerHeight 0 * (i:ℚ) := mul_pos hstep hiq
  push_cast
  nlinarith [key]

/-- Witness for the amended C1 on the concrete two-row spec. -/
theorem yScale_row0_at_bottom_witness : cellY specTwoRows 1 < cellY specTwoRows 0 :=
  yScale_row0_at_bottom specTwoRows (by decide)
    (by norm_num [RenderSpec.innerHeight, marginTop, marginBottom, specTwoRows]) 1
    (by decide) (by decide)

/-- C2 counterexample: invoking the renderer with an empty matrix (and a
title supplied) leaves stale prior content on the surface - the clear at
HeatmapChart.tsx line 24 is never reached, because the guard at line 21
returns first - and over an empty surface draws nothing at all, not even
margins or the title. -/
theorem render_empty_keeps_prior_counterexample :
    stalePrim ∈ renderHeatmap emptySpec [stalePrim] ∧
      renderHeatmap emptySpec [] = [] := by decide

/-- C2 amended: the render never throws (it is total) and, for an empty
matrix, returns early before the clear, leaving the prior surface
contents untouched and drawing nothing; for a non-empty matrix every
invocation first discards all prior content, so the result does not
depend on what was on the surface. -/
theorem render_empty_early_return (s : RenderSpec) (prior : List Prim) :
    (s.data = [] → renderHeatmap s prior = prior) ∧
      (s.data ≠ [] → renderHeatmap s prior = renderHeatmap s []) := by
  constructor
  · intro h
    unfold renderHeatmap
    rw [if_pos (by simp [h])]
  · intro h
    unfold renderHeatmap
    rw [if_neg (by simpa using h), if_neg (by simpa using h)]

/-- Witness for the amended C2 at concrete inputs. -/
theorem render_empty_early_return_witness :
    renderHeatmap emptySpec [stalePrim] = [stalePrim] ∧
      renderHeatmap specTwoRows [stalePrim] = renderHeatmap specTwoRows [] :=
  ⟨(render_empty_early_return emptySpec [stalePrim]).1 rfl,
    (render_empty_early_return specTwoRows [stalePrim]).2 (by decide)⟩

/-- C10: with a non-empty rectangular matrix, the renderer draws both
the cell rectangle and its overlay text for every cell (i, j) - it never
throws - and whenever a label array is shorter than the corresponding
matrix dimension (xLabels[j] or yLabels[i] out of range, hence outside
the band-scale domain), the unresolvable coordinate - the abscissa for a
short x-label array, the ordinate for a short y-label array - falls back
to 0 through the || 0 guards at lines 57-58 and 71-72. -/
theorem missing_label_fallback (s : RenderSpec) (prior : List Prim) (i j : ℕ)
    (hi : i < s.data.length) (hj : j < (s.data.getD i []).length) :
    mkCellRect s i j ∈ renderHeatmap s prior ∧
      mkCellText s i j ∈ renderHeatmap s prior ∧
      (s.xLabels.length ≤ j → cellX s j = 0) ∧
      (s.yLabels.length ≤ i → cellY s i = 0) := by
  have hx0 : s.xLabels.length ≤ j → cellX s j = 0 := by
    intro hshort
    unfold cellX
    rw [List.getElem?_eq_none hshort]
    rfl
  have hy0 : s.yLabels.length ≤ i → cellY s i = 0 := by
    intro hshort
    unfold cellY
    rw [List.getElem?_eq_none hshort]
    rfl
  have hne : ¬ s.data.length = 0 := by omega
  have hrect : mkCellRect s i j ∈ (List.range s.data.length).flatMap
      (fun i => (List.range (s.data.getD i []).length).map fun j => mkCellRect s i j) :=
    List.mem_flatMap.mpr
      ⟨i, List.mem_range.mpr hi, List.mem_map.mpr ⟨j, List.mem_range.mpr hj, rfl⟩⟩
  have htext : mkCellText s i j ∈ (List.range s.data.length).flatMap
      (fun i => (List.range (s.data.getD i []).length).map fun j => mkCellText s i j) :=
    List.mem_flatMap.mpr
      ⟨i, List.mem_range.mpr hi, List.mem_map.mpr ⟨j, List.mem_range.mpr hj, rfl⟩⟩
  refine ⟨?_, ?_, hx0, hy0⟩
  · unfold renderHeatmap
    rw [if_neg hne]
    simp only [List.mem_append]
    exact Or.inl (Or.inl (Or.inl (Or.inl hrect)))
  · unfold renderHeatmap
    rw [if_neg hne]
    simp only [List.mem_append]
    exact Or.inl (Or.inl (Or.inl (Or.inr htext)))

/-- Witness for C10 on the 1 x 1 matrix with no labels on either axis:
the cell rect and text are drawn and both coordinates fall back to 0. -/
theorem missing_label_fallback_witness :
    mkCellRect shortLabelSpec 0 0 ∈ renderHeatmap shortLabelSpec [] ∧
      mkCellText shortLabelSpec 0 0 ∈ renderHeatmap shortLabelSpec [] ∧
      cellX shortLabelSpec 0 = 0 ∧ cellY shortLabelSpec 0 = 0 :=
  ⟨(missing_label_fallback shortLabelSpec [] 0 0 (by decide) (by decide)).1,
    (missing_label_fallback shortLabelSpec [] 0 0 (by decide) (by decide)).2.1,
    (missing_label_fallback shortLabelSpec [] 0 0 (by decide) (by decide)).2.2.1
      (by decide),
    (missing_label_fallback shortLabelSpec [] 0 0 (by decide) (by decide)).2.2.2
      (by decide)⟩

end CapitalCanvas
